import Mathlib

/-!
Shallow embedding of `akshare_get_csv.py` (repository `stockdata`).

The script fetches daily A-share history through `ak.stock_zh_a_hist`,
renames the Chinese column labels to English ones, coerces the date column
with `pd.to_datetime(...).dt.strftime('%Y-%m-%d')`, coerces ten numeric
columns with `pd.to_numeric(..., errors='coerce')`, drops rows whose five
essential OHLCV cells are all missing, and writes the table to
`<script_dir>/A_data/{symbol}_{adj_suffix}_A_data.csv`.

A pandas DataFrame is embedded as a list of column labels plus a list of
rows, each row a list of `Value` cells.  `Value.missing` plays the role of
NaN / NaT.  Steps that can raise in Python return `Except String _`; the
surrounding `try/except` of `get_stock_data` becomes the `exceptionCaught`
branch of the effect trace.
-/

namespace Stockdata

/-- A cell of the table: a numeric value (pandas floats are modelled as
rationals), a string, a calendar date (modelling a Python `datetime.date`
object), or a missing value (pandas `NaN` / `NaT`). -/
inductive Value where
  | num (q : Rat)
  | str (s : String)
  | date (y m d : Nat)
  | missing
deriving DecidableEq

/-- True exactly on the missing cell; models `pandas.isna`. -/
def isNA : Value → Bool
  | .missing => true
  | _ => false

/-- True on numeric and missing cells; the possible results of
`pd.to_numeric(..., errors='coerce')`. -/
def numOrNA : Value → Bool
  | .num _ => true
  | .missing => true
  | _ => false

/-- Digit value of a decimal digit character, `none` on anything else. -/
def charDigitVal (c : Char) : Option Nat :=
  if c.isDigit then some (c.toNat - 48) else none

/-- Value of a non-empty all-digit character list, `none` otherwise. -/
def digitsVal (cs : List Char) : Option Nat :=
  if cs.isEmpty then none
  else cs.foldl (fun acc c =>
    match acc, charDigitVal c with
    | some n, some d => some (n * 10 + d)
    | _, _ => none) (some 0)

/-- Decimal-digit character for `n % 10`. -/
def digitChar (n : Nat) : Char := Char.ofNat (48 + n % 10)

/-- ASCII whitespace, the characters `float()` strips. -/
def isSpaceChar (c : Char) : Bool :=
  c = ' ' || c = '\t' || c = '\n' || c = '\r'

/-- Strip leading and trailing whitespace from a character list. -/
def trimChars (cs : List Char) : List Char :=
  ((cs.dropWhile isSpaceChar).reverse.dropWhile isSpaceChar).reverse

/-- Unsigned decimal parse (`"12"`, `"12.5"`, `"12."`, `".5"`), used to
model which strings `pd.to_numeric` accepts.  Scientific notation is not
modelled; this only relabels some strings between numeric and missing and
no claim depends on the exact accepted set. -/
def parseUnsigned (cs : List Char) : Option Rat :=
  let ip := cs.takeWhile (fun c => c ≠ '.')
  match cs.dropWhile (fun c => c ≠ '.') with
  | [] => (digitsVal ip).map (fun n => (n : Rat))
  | _ :: fp =>
    if fp.contains '.' then none
    else if ip.isEmpty && fp.isEmpty then none
    else do
      let i ← if ip.isEmpty then some 0 else digitsVal ip
      let f ← if fp.isEmpty then some 0 else digitsVal fp
      some ((i : Rat) + (f : Rat) / ((10 : Rat) ^ fp.length))

/-- Signed decimal parse after whitespace trimming. -/
def parseSigned (s : String) : Option Rat :=
  match trimChars s.toList with
  | '-' :: rest => (parseUnsigned rest).map (fun q => -q)
  | '+' :: rest => parseUnsigned rest
  | cs => parseUnsigned cs

/-- One cell of `pd.to_numeric(col, errors='coerce')` (source line 65):
numbers pass through, parseable strings become numbers, everything else
(unparseable strings, date objects, NaN) becomes missing.  With
`errors='coerce'` this conversion never raises. -/
def toNumericCell : Value → Value
  | .num q => .num q
  | .str s =>
    match parseSigned s with
    | some q => .num q
    | none => .missing
  | .date _ _ _ => .missing
  | .missing => .missing

/-- Gregorian leap-year test. -/
def isLeapYear (y : Nat) : Bool :=
  (y % 4 = 0 && y % 100 ≠ 0) || y % 400 = 0

/-- Days in a month of the Gregorian calendar. -/
def daysInMonth (y m : Nat) : Nat :=
  if m = 2 then (if isLeapYear y then 29 else 28)
  else if m = 4 || m = 6 || m = 9 || m = 11 then 30
  else 31

/-- Calendar validity of a year/month/day triple. -/
def validDate (y m d : Nat) : Bool :=
  1 ≤ m && m ≤ 12 && 1 ≤ d && d ≤ daysInMonth y m

/-- Date-order comparison on year/month/day triples. -/
def tripleLE : Nat × Nat × Nat → Nat × Nat × Nat → Bool
  | (y1, m1, d1), (y2, m2, d2) =>
    y1 < y2 || (y1 = y2 && (m1 < m2 || (m1 = m2 && d1 ≤ d2)))

/-- First calendar day representable by a nanosecond `pd.Timestamp`
(date granularity of the 1677-09-21T00:12 bound). -/
def minTsTriple : Nat × Nat × Nat := (1677, 9, 22)

/-- Last calendar day fully representable by a nanosecond `pd.Timestamp`. -/
def maxTsTriple : Nat × Nat × Nat := (2262, 4, 11)

/-- Whether a calendar day is within `pd.Timestamp` range; `pd.to_datetime`
raises `OutOfBoundsDatetime` outside it. -/
def inTsBounds (y m d : Nat) : Bool :=
  tripleLE minTsTriple (y, m, d) && tripleLE (y, m, d) maxTsTriple

/-- `strftime('%Y-%m-%d')` of a timestamp: four year digits, a dash, two
month digits, a dash, two day digits (zero padded).  Faithful for the
years reachable through `pd.Timestamp` (`y ≤ 9999`). -/
def formatISO (y m d : Nat) : String :=
  String.mk [digitChar (y / 1000), digitChar (y / 100), digitChar (y / 10),
    digitChar y, '-', digitChar (m / 10), digitChar m, '-',
    digitChar (d / 10), digitChar d]

/-- Date parse used to model `pd.to_datetime` on the string forms the
provider emits: strict `YYYY-MM-DD` or `YYYYMMDD`, with calendar
validation.  Other textual forms are modelled as unparseable. -/
def parseDateString (s : String) : Option (Nat × Nat × Nat) :=
  match s.toList with
  | [a, b, c, d, '-', e, f, '-', g, h] => do
    let va ← charDigitVal a
    let vb ← charDigitVal b
    let vc ← charDigitVal c
    let vd ← charDigitVal d
    let ve ← charDigitVal e
    let vf ← charDigitVal f
    let vg ← charDigitVal g
    let vh ← charDigitVal h
    let y := ((va * 10 + vb) * 10 + vc) * 10 + vd
    let m := ve * 10 + vf
    let dd := vg * 10 + vh
    if validDate y m dd then some (y, m, dd) else none
  | [a, b, c, d, e, f, g, h] => do
    let va ← charDigitVal a
    let vb ← charDigitVal b
    let vc ← charDigitVal c
    let vd ← charDigitVal d
    let ve ← charDigitVal e
    let vf ← charDigitVal f
    let vg ← charDigitVal g
    let vh ← charDigitVal h
    let y := ((va * 10 + vb) * 10 + vc) * 10 + vd
    let m := ve * 10 + vf
    let dd := vg * 10 + vh
    if validDate y m dd then some (y, m, dd) else none
  | _ => none

/-- One cell of `pd.to_datetime(col).dt.strftime('%Y-%m-%d')` (source
line 59).  Missing input stays missing (`NaN ↦ NaT ↦ NaN` under
`strftime`), date objects and parseable strings become the zero-padded
ISO string, anything else raises (numeric epoch interpretation is
modelled as an error: the provider's date column is never numeric). -/
def toDatetimeCell : Value → Except String Value
  | .missing => .ok .missing
  | .date y m d =>
    if validDate y m d && inTsBounds y m d then .ok (.str (formatISO y m d))
    else .error "OutOfBoundsDatetime"
  | .str s =>
    match parseDateString s with
    | some (y, m, d) =>
      if inTsBounds y m d then .ok (.str (formatISO y m d))
      else .error "OutOfBoundsDatetime"
    | none => .error "ValueError: unrecognized date"
  | .num _ => .error "epoch date input not modelled"

/-- The triple `pd.to_datetime` resolves a raw date cell to, when it
resolves it to a (non-NaT) timestamp. -/
def dateCellTriple (v : Value) : Option (Nat × Nat × Nat) :=
  match v with
  | .date y m d =>
    if validDate y m d && inTsBounds y m d then some (y, m, d) else none
  | .str s =>
    match parseDateString s with
    | some (y, m, d) => if inTsBounds y m d then some (y, m, d) else none
    | none => none
  | _ => none

/-- A pandas DataFrame: ordered column labels and rows of cells. -/
structure DataFrame where
  cols : List String
  rows : List (List Value)
deriving DecidableEq

/-- `df.empty`: true when either axis has length zero. -/
def DataFrame.empty (df : DataFrame) : Bool :=
  df.rows.isEmpty || df.cols.isEmpty

/-- The rename table of source lines 44-56 (Chinese label, English label). -/
def renameTable : List (String × String) :=
  [("日期", "date"), ("开盘", "open"), ("收盘", "close"), ("最高", "high"),
   ("最低", "low"), ("成交量", "volume"), ("成交额", "amount"),
   ("振幅", "amplitude"), ("涨跌幅", "pct_change"), ("涨跌额", "price_change"),
   ("换手率", "turnover")]

/-- `df.rename(columns=...)` on one label: mapped if present, unchanged
otherwise. -/
def renameCol (c : String) : String :=
  match renameTable.lookup c with
  | some e => e
  | none => c

/-- `df.rename(columns=..., inplace=True)`: relabels columns, leaves rows
untouched. -/
def renameCols (df : DataFrame) : DataFrame :=
  ⟨df.cols.map renameCol, df.rows⟩

/-- Replace the element at position `i`, identity when out of range. -/
def modifyAt : Nat → (Value → Value) → List Value → List Value
  | _, _, [] => []
  | 0, f, v :: vs => f v :: vs
  | n + 1, f, v :: vs => v :: modifyAt n f vs

/-- Column selection `df[c]`: the index of the (unique) column labelled
`c`.  A missing label is a `KeyError`; a duplicated label makes the
column-wise conversions of the script raise (pandas returns a DataFrame
for a duplicated label and `to_numeric` / `to_datetime` then fail). -/
def findCol (cols : List String) (c : String) : Except String Nat :=
  if cols.count c > 1 then .error ("duplicate column label: " ++ c)
  else
    match cols.indexOf? c with
    | some i => .ok i
    | none => .error ("KeyError: " ++ c)

/-- Apply `toDatetimeCell` to the cell at position `i` of every row,
propagating the first raised error — the series-level effect of
`pd.to_datetime(col).dt.strftime('%Y-%m-%d')`. -/
def mapRowsDate (i : Nat) : List (List Value) → Except String (List (List Value))
  | [] => .ok []
  | r :: rs =>
    match toDatetimeCell (r.getD i .missing) with
    | .error e => .error e
    | .ok v =>
      match mapRowsDate i rs with
      | .ok rs' => .ok (modifyAt i (fun _ => v) r :: rs')
      | .error e => .error e

/-- Source line 59: `df['date'] = pd.to_datetime(df['date']).dt.strftime('%Y-%m-%d')`. -/
def coerceDateCol (df : DataFrame) : Except String DataFrame :=
  match findCol df.cols "date" with
  | .error e => .error e
  | .ok i =>
    match mapRowsDate i df.rows with
    | .ok rows => .ok ⟨df.cols, rows⟩
    | .error e => .error e

/-- The ten numeric columns of source lines 62-63. -/
def numeric_cols : List String :=
  ["open", "close", "high", "low", "volume", "amount",
   "amplitude", "pct_change", "price_change", "turnover"]

/-- One iteration of the loop at lines 64-65:
`df[col] = pd.to_numeric(df[col], errors='coerce')`. -/
def coerceNumericCol (df : DataFrame) (c : String) : Except String DataFrame :=
  match findCol df.cols c with
  | .error e => .error e
  | .ok i => .ok ⟨df.cols, df.rows.map (modifyAt i toNumericCell)⟩

/-- The whole loop at lines 64-65 over the ten numeric columns. -/
def coerceNumericCols (df : DataFrame) : Except String DataFrame :=
  numeric_cols.foldlM coerceNumericCol df

/-- The five essential columns of source line 69. -/
def essential_cols : List String :=
  ["open", "high", "low", "close", "volume"]

/-- The row-keeping predicate of `dropna(subset=..., how='all')`: keep a
row when at least one subset cell is not missing. -/
def keepRow (idxs : List Nat) (r : List Value) : Bool :=
  idxs.any (fun i => !(isNA (r.getD i .missing)))

/-- Positions of the given labels, `none` when a label is absent —
`dropna(subset=...)` raises a `KeyError` on a missing subset label. -/
def lookupIdxs (cols : List String) : List String → Option (List Nat)
  | [] => some []
  | c :: cs =>
    match cols.indexOf? c, lookupIdxs cols cs with
    | some i, some is => some (i :: is)
    | _, _ => none

/-- Source line 70: `df.dropna(subset=essential_cols, how='all')`. -/
def dropnaEssential (df : DataFrame) : Except String DataFrame :=
  match lookupIdxs df.cols essential_cols with
  | none => .error "KeyError: dropna subset"
  | some idxs => .ok ⟨df.cols, df.rows.filter (keepRow idxs)⟩

/-- The coercion part of the normalizer (lines 44-65): rename, date
coercion, numeric coercion — everything before the row drop. -/
def coercedStage (df : DataFrame) : Except String DataFrame :=
  match coerceDateCol (renameCols df) with
  | .error e => .error e
  | .ok d1 => coerceNumericCols d1

/-- The full normalizer of lines 44-70. -/
def normalize (df : DataFrame) : Except String DataFrame :=
  match coercedStage df with
  | .error e => .error e
  | .ok d2 => dropnaEssential d2

/-- The cell of row `r` under the column labelled `c` (first occurrence),
missing when the label or the cell is absent. -/
def cellByLabel (cols : List String) (c : String) (r : List Value) : Value :=
  match cols.indexOf? c with
  | some i => r.getD i .missing
  | none => .missing

/-- Rendering of one cell in the written CSV: strings verbatim, missing as
the empty field (pandas writes NaN as nothing), dates in ISO form, numbers
abstracted by their `Rat` rendering. -/
def renderCell : Value → String
  | .num q => toString q
  | .str s => s
  | .date y m d => formatISO y m d
  | .missing => ""

/-- The file produced by `df.to_csv(path, index=False, encoding='utf-8')`
(source line 88): header row, data rows, declared encoding, and whether a
row-index column was emitted. -/
structure CsvFile where
  headerRow : List String
  dataRows : List (List String)
  encoding : String
  hasIndexCol : Bool
deriving DecidableEq

/-- `df.to_csv(..., index=False, encoding='utf-8')`. -/
def to_csv (df : DataFrame) : CsvFile :=
  ⟨df.cols, df.rows.map (fun r => r.map renderCell), "utf-8", false⟩

/-- The argument record of the `ak.stock_zh_a_hist` call (lines 30-36). -/
structure FetchParams where
  symbol : String
  period : String
  start_date : String
  end_date : String
  adjust : String

/-- Outcome of the provider call: a table, or a raised exception. -/
inductive FetchOutcome where
  | ok (df : DataFrame)
  | exn (msg : String)

/-- Observable effects of one run: console prints, the printed traceback
of the `except` branch, the printed 5-row preview, directory creation and
the file write. -/
inductive Effect where
  | printed (s : String)
  | printedTrace
  | printedTable (df : DataFrame)
  | madeDir (path : String)
  | wroteFile (path : String) (file : CsvFile)
deriving DecidableEq

/-- ASCII lower-casing of one character; `str.lower()` restricted to the
ASCII selectors this program receives. -/
def lowerChar (c : Char) : Char :=
  if 'A' ≤ c && c ≤ 'Z' then Char.ofNat (c.toNat + 32) else c

/-- `adjust_type.lower()` on the ASCII strings the CLI can pass. -/
def lowerStr (s : String) : String := String.mk (s.toList.map lowerChar)

/-- Lines 21-26: map the user-facing adjust selector to the provider
parameter. -/
def mapAdjust (adjust_type : String) : String :=
  if ["none", "no", "false", ""].contains (lowerStr adjust_type) then ""
  else if lowerStr adjust_type = "hfq" then "hfq"
  else "qfq"

/-- Line 83: the filename tag of the resolved adjustment. -/
def adjSuffix (ak_adjust : String) : String :=
  if ak_adjust = "" then "no_adj" else ak_adjust

/-- Line 18 status message. -/
def fetchingMsg (symbol adjust_type : String) : String :=
  "正在获取股票 " ++ symbol ++ " 的历史数据（复权类型: " ++ adjust_type ++ "）..."

/-- Line 39 empty-result message. -/
def emptyMsg (symbol : String) : String :=
  "错误：未能获取到股票 " ++ symbol ++ " 的数据，请检查代码是否正确。"

/-- Line 80 directory-created message. -/
def createdDirMsg (p : String) : String := "已创建 data 目录：" ++ p

/-- Line 96 exception message. -/
def exnMsg (e : String) : String := "发生异常: " ++ e

/-- Line 90 success message. -/
def successMsg (p : String) : String := "成功！数据已保存至: " ++ p

/-- Line 91 row-count message. -/
def rowCountMsg (n : Nat) : String := "数据总行数: " ++ toString n

/-- Line 92 preview banner. -/
def previewBannerMsg : String := "前5行数据预览："

/-- `df.head()`: the first five rows. -/
def head5 (df : DataFrame) : DataFrame := ⟨df.cols, df.rows.take 5⟩

/-- The effect trace of one call of `get_stock_data(symbol, adjust_type)`.
`scriptDir` stands for `os.path.dirname(os.path.abspath(__file__))`,
`endDate` for `datetime.now().strftime('%Y%m%d')`, `dirExists` for
`os.path.exists(data_dir)` and `fetch` for `ak.stock_zh_a_hist`.  The
`try/except` of lines 28-98 appears as the traces ending in
`printedTrace`; the file write is modelled as atomic. -/
def get_stock_data (scriptDir symbol adjust_type endDate : String)
    (dirExists : Bool) (fetch : FetchParams → FetchOutcome) : List Effect :=
  match fetch ⟨symbol, "daily", "19900101", endDate, mapAdjust adjust_type⟩ with
  | .exn e =>
    [Effect.printed (fetchingMsg symbol adjust_type),
     .printed (exnMsg e), .printedTrace]
  | .ok df =>
    if df.empty then
      [Effect.printed (fetchingMsg symbol adjust_type),
       .printed (emptyMsg symbol)]
    else
      match normalize df with
      | .error e =>
        [Effect.printed (fetchingMsg symbol adjust_type),
         .printed (exnMsg e), .printedTrace]
      | .ok ndf =>
        [Effect.printed (fetchingMsg symbol adjust_type)] ++
        (if dirExists then []
         else [Effect.madeDir (scriptDir ++ "/A_data"),
               Effect.printed (createdDirMsg (scriptDir ++ "/A_data"))]) ++
        [Effect.wroteFile
           (scriptDir ++ "/A_data" ++ "/" ++ symbol ++ "_" ++
             adjSuffix (mapAdjust adjust_type) ++ "_A_data.csv")
           (to_csv ndf),
         .printed (successMsg
           (scriptDir ++ "/A_data" ++ "/" ++ symbol ++ "_" ++
             adjSuffix (mapAdjust adjust_type) ++ "_A_data.csv")),
         .printed (rowCountMsg ndf.rows.length),
         .printed previewBannerMsg,
         .printedTable (head5 ndf)]

/-- The validated CLI arguments. -/
structure Args where
  code : String
  adjust : String
deriving DecidableEq

/-- The `choices` list of the `--adjust` flag (lines 104-106). -/
def adjustChoices : List String := ["qfq", "hfq", "none"]

/-- The argparse configuration of lines 101-108: `--code` required,
`--adjust` optional with default `qfq` and the enumerated choices.
Argparse failures (missing `--code`, a choice outside the set) abort the
process before `get_stock_data` runs; they are the `error` branch. -/
def parseArgs (code? : Option String) (adjust? : Option String) :
    Except String Args :=
  match code? with
  | none => .error "the following arguments are required: --code"
  | some c =>
    let adj := adjust?.getD "qfq"
    if adjustChoices.contains adj then .ok ⟨c, adj⟩
    else .error ("argument --adjust: invalid choice: " ++ adj)

/-- The `__main__` block (lines 101-109): parse, then run.  An argparse
error yields no effects at all. -/
def mainRun (code? adjust? : Option String) (scriptDir endDate : String)
    (dirExists : Bool) (fetch : FetchParams → FetchOutcome) :
    Except String (List Effect) :=
  match parseArgs code? adjust? with
  | .error e => .error e
  | .ok a => .ok (get_stock_data scriptDir a.code a.adjust endDate dirExists fetch)

/-- The provider's column labels, in the fixed order `ak.stock_zh_a_hist`
returns them. -/
def sourceCols : List String :=
  ["日期", "开盘", "收盘", "最高", "最低", "成交量", "成交额",
   "振幅", "涨跌幅", "涨跌额", "换手率"]

/-- The eleven normalized labels, in the order the rename produces from
`sourceCols`. -/
def normalizedCols : List String :=
  ["date", "open", "close", "high", "low", "volume", "amount",
   "amplitude", "pct_change", "price_change", "turnover"]

/-- The source-locale labels the rename table maps. -/
def renameSourceLabels : List String := renameTable.map Prod.fst

/-- Strict `YYYY-MM-DD`: ten characters, digits around dashes at
positions 4 and 7. -/
def isStrictISO (s : String) : Bool :=
  match s.toList with
  | [a, b, c, d, '-', e, f, '-', g, h] =>
    a.isDigit && b.isDigit && c.isDigit && d.isDigit &&
    e.isDigit && f.isDigit && g.isDigit && h.isDigit
  | _ => false

/-- The date a normalized date cell denotes (the cell is an ISO string
after the date coercion; missing stays `none`). -/
def outKeyCell (v : Value) : Option (Nat × Nat × Nat) :=
  match v with
  | .str s => parseDateString s
  | _ => none

/-- Date key of a fetched row: what `pd.to_datetime` resolves the cell at
position `i` to. -/
def rawDateKey (i : Nat) (r : List Value) : Option (Nat × Nat × Nat) :=
  dateCellTriple (r.getD i .missing)

/-- Date key of a normalized row: the date its ISO string cell denotes. -/
def outDateKey (i : Nat) (r : List Value) : Option (Nat × Nat × Nat) :=
  outKeyCell (r.getD i .missing)

/-- Ascending-date order on optional date keys; rows without a resolved
date impose no constraint (pandas sorts NaT to wherever it was). -/
def keyLE (a b : Option (Nat × Nat × Nat)) : Prop :=
  ∀ t1 t2, a = some t1 → b = some t2 → tripleLE t1 t2 = true

/-- A provider response with no rows (`df.empty` is true). -/
def emptyDf : DataFrame := ⟨[], []⟩

/-- A two-row provider response in the provider's shape: the second row's
five essential cells are all unparseable, the first row is fully numeric. -/
def sampleDf : DataFrame :=
  ⟨sourceCols,
   [[.str "2024-01-02", .num 10, .num 11, .num 12, .num 9, .num 1000,
     .num 5, .num 1, .num 2, .num 3, .num 4],
    [.str "2024-01-03", .str "x", .str "y", .str "z", .str "w", .str "v",
     .missing, .missing, .missing, .missing, .missing]]⟩

/-- The normalized form of `sampleDf`: date reformatted, second row
dropped. -/
def sampleNdf : DataFrame :=
  ⟨normalizedCols,
   [[.str "2024-01-02", .num 10, .num 11, .num 12, .num 9, .num 1000,
     .num 5, .num 1, .num 2, .num 3, .num 4]]⟩

/-- A provider response with a twelfth column and a missing date cell in a
row whose essential cells are present. -/
def extraColMissingDateDf : DataFrame :=
  ⟨sourceCols ++ ["extra"],
   [[.missing, .num 1, .num 2, .num 3, .num 4, .num 5, .num 6, .num 7,
     .num 8, .num 9, .num 10, .str "keep"]]⟩

/-- A provider response whose last column is labelled with the English
name `turnover` instead of `换手率`, holding an unparseable string. -/
def rawTurnoverDf : DataFrame :=
  ⟨["日期", "开盘", "收盘", "最高", "最低", "成交量", "成交额",
    "振幅", "涨跌幅", "涨跌额", "turnover"],
   [[.str "2024-01-02", .num 1, .num 2, .num 3, .num 4, .num 5, .num 6,
     .num 7, .num 8, .num 9, .str "abc"]]⟩

/-- A provider response with the eleven provider columns plus a harmless
extra column. -/
def extraNoteDf : DataFrame :=
  ⟨sourceCols ++ ["备注"],
   [[.str "2024-01-02", .num 10, .num 11, .num 12, .num 9, .num 1000,
     .num 5, .num 1, .num 2, .num 3, .num 4, .str "note"]]⟩

/-- The normalized form of `extraNoteDf`: the extra column is untouched. -/
def extraNoteNdf : DataFrame :=
  ⟨normalizedCols ++ ["备注"],
   [[.str "2024-01-02", .num 10, .num 11, .num 12, .num 9, .num 1000,
     .num 5, .num 1, .num 2, .num 3, .num 4, .str "note"]]⟩

/-! ### Helper lemmas about the embedding -/

theorem length_modifyAt (i : Nat) (f : Value → Value) (r : List Value) :
    (modifyAt i f r).length = r.length := by
  induction r generalizing i with
  | nil => cases i <;> rfl
  | cons v vs ih =>
    cases i with
    | zero => rfl
    | succ n => simpa [modifyAt] using ih n

theorem getD_modifyAt_ne (i j : Nat) (f : Value → Value) (r : List Value)
    (h : i ≠ j) : (modifyAt i f r).getD j .missing = r.getD j .missing := by
  induction r generalizing i j with
  | nil => cases i <;> rfl
  | cons v vs ih =>
    cases i with
    | zero =>
      cases j with
      | zero => exact absurd rfl h
      | succ j' => rfl
    | succ i' =>
      cases j with
      | zero => rfl
      | succ j' =>
        simpa [modifyAt, List.getD_cons_succ] using ih i' j' (by omega)

theorem numOrNA_toNumericCell (v : Value) : numOrNA (toNumericCell v) = true := by
  cases v with
  | num q => rfl
  | str s => cases h : parseSigned s <;> simp [toNumericCell, h, numOrNA]
  | date y m d => rfl
  | missing => rfl

theorem numOrNA_getD_modifyAt_self (i : Nat) (r : List Value) :
    numOrNA ((modifyAt i toNumericCell r).getD i .missing) = true := by
  induction r generalizing i with
  | nil => cases i <;> rfl
  | cons v vs ih =>
    cases i with
    | zero => simpa [modifyAt] using numOrNA_toNumericCell v
    | succ n => simpa [modifyAt, List.getD_cons_succ] using ih n

theorem numOrNA_getD_modifyAt (i j : Nat) (r : List Value)
    (h : numOrNA (r.getD i .missing) = true) :
    numOrNA ((modifyAt j toNumericCell r).getD i .missing) = true := by
  by_cases hij : j = i
  · subst hij; exact numOrNA_getD_modifyAt_self j r
  · rw [getD_modifyAt_ne j i _ _ hij]; exact h

theorem indexOf?_get? (l : List String) (a : String) (i : Nat)
    (h : l.indexOf? a = some i) : l.get? i = some a := by
  obtain ⟨hlt, hbeq, -⟩ := List.findIdx?_eq_some_iff_getElem.mp h
  rw [List.get?_eq_getElem?, List.getElem?_eq_getElem hlt, eq_of_beq hbeq]

theorem findCol_ok (cols : List String) (c : String) (i : Nat)
    (h : findCol cols c = .ok i) :
    cols.indexOf? c = some i ∧ cols.get? i = some c := by
  unfold findCol at h
  split at h
  · cases h
  · cases hidx : cols.indexOf? c with
    | none => rw [hidx] at h; cases h
    | some j =>
      rw [hidx] at h
      cases h
      exact ⟨rfl, indexOf?_get? cols c i hidx⟩

theorem coerceNumericCol_ok (d d' : DataFrame) (c : String)
    (h : coerceNumericCol d c = .ok d') :
    ∃ i, d.cols.indexOf? c = some i ∧ d.cols.get? i = some c ∧
      d'.cols = d.cols ∧ d'.rows = d.rows.map (modifyAt i toNumericCell) := by
  unfold coerceNumericCol at h
  cases hfc : findCol d.cols c with
  | error e => rw [hfc] at h; cases h
  | ok i =>
    rw [hfc] at h
    cases h
    obtain ⟨h1, h2⟩ := findCol_ok d.cols c i hfc
    exact ⟨i, h1, h2, rfl, rfl⟩

theorem foldl_coerce_cols_rows (cs : List String) (d d' : DataFrame)
    (h : List.foldlM coerceNumericCol d cs = .ok d') :
    d'.cols = d.cols ∧ d'.rows.length = d.rows.length := by
  induction cs generalizing d with
  | nil => cases h; exact ⟨rfl, rfl⟩
  | cons c cs ih =>
    rw [List.foldlM_cons] at h
    cases hc : coerceNumericCol d c with
    | error e => rw [hc] at h; cases h
    | ok d1 =>
      rw [hc] at h
      obtain ⟨i, -, -, hcols, hrows⟩ := coerceNumericCol_ok d d1 c hc
      obtain ⟨h1, h2⟩ := ih d1 h
      refine ⟨h1.trans hcols, h2.trans ?_⟩
      rw [hrows, List.length_map]

theorem foldl_coerce_preserves_numOrNA (cs : List String) (d d' : DataFrame)
    (h : List.foldlM coerceNumericCol d cs = .ok d') (i : Nat)
    (hall : ∀ r ∈ d.rows, numOrNA (r.getD i .missing) = true) :
    ∀ r ∈ d'.rows, numOrNA (r.getD i .missing) = true := by
  induction cs generalizing d with
  | nil => cases h; exact hall
  | cons c cs ih =>
    rw [List.foldlM_cons] at h
    cases hc : coerceNumericCol d c with
    | error e => rw [hc] at h; cases h
    | ok d1 =>
      rw [hc] at h
      obtain ⟨j, -, -, -, hrows⟩ := coerceNumericCol_ok d d1 c hc
      refine ih d1 h ?_
      intro r hr
      rw [hrows] at hr
      obtain ⟨r0, hr0, rfl⟩ := List.mem_map.mp hr
      exact numOrNA_getD_modifyAt i j r0 (hall r0 hr0)

theorem foldl_coerce_establishes (cs : List String) (d d' : DataFrame)
    (h : List.foldlM coerceNumericCol d cs = .ok d') :
    ∀ c ∈ cs, ∃ i, d.cols.indexOf? c = some i ∧
      ∀ r ∈ d'.rows, numOrNA (r.getD i .missing) = true := by
  induction cs generalizing d with
  | nil => intro c hc; cases hc
  | cons c0 cs ih =>
    intro c hc
    rw [List.foldlM_cons] at h
    cases hc0 : coerceNumericCol d c0 with
    | error e => rw [hc0] at h; cases h
    | ok d1 =>
      rw [hc0] at h
      obtain ⟨j, hidx, -, hcols, hrows⟩ := coerceNumericCol_ok d d1 c0 hc0
      rcases List.mem_cons.mp hc with rfl | hmem
      · refine ⟨j, hidx, ?_⟩
        refine foldl_coerce_preserves_numOrNA cs d1 d' h j ?_
        intro r hr
        rw [hrows] at hr
        obtain ⟨r0, -, rfl⟩ := List.mem_map.mp hr
        exact numOrNA_getD_modifyAt_self j r0
      · obtain ⟨i, hidx', hprop⟩ := ih d1 h c hmem
        rw [hcols] at hidx'
        exact ⟨i, hidx', hprop⟩

theorem map_getD_of_fixed_nil (f : List Value → List Value)
    (hf : f [] = []) (rows : List (List Value)) (k : Nat) :
    (rows.map f).getD k [] = f (rows.getD k []) := by
  induction rows generalizing k with
  | nil => simpa using hf.symm
  | cons r rs ih =>
    cases k with
    | zero => rfl
    | succ k' => simpa [List.getD_cons_succ] using ih k'

theorem modifyAt_nil (i : Nat) (f : Value → Value) : modifyAt i f [] = [] := by
  cases i <;> rfl

theorem foldl_coerce_preserves_pos (cs : List String) (d d' : DataFrame)
    (h : List.foldlM coerceNumericCol d cs = .ok d') (j : Nat)
    (hj : ∀ c ∈ cs, d.cols.get? j ≠ some c) :
    ∀ k, (d'.rows.getD k []).getD j .missing =
      (d.rows.getD k []).getD j .missing := by
  induction cs generalizing d with
  | nil => cases h; intro k; rfl
  | cons c0 cs ih =>
    intro k
    rw [List.foldlM_cons] at h
    cases hc0 : coerceNumericCol d c0 with
    | error e => rw [hc0] at h; cases h
    | ok d1 =>
      rw [hc0] at h
      obtain ⟨i, -, hget, hcols, hrows⟩ := coerceNumericCol_ok d d1 c0 hc0
      have hij : i ≠ j := by
        intro hij
        exact hj c0 (List.mem_cons_self c0 cs) (hij ▸ hget)
      have step : (d1.rows.getD k []).getD j .missing =
          (d.rows.getD k []).getD j .missing := by
        rw [hrows, map_getD_of_fixed_nil _ (modifyAt_nil i toNumericCell) _ k,
          getD_modifyAt_ne i j _ _ hij]
      rw [← step]
      refine ih d1 h ?_ k
      intro c hc
      rw [hcols]
      exact hj c (List.mem_cons_of_mem c0 hc)

theorem mapRowsDate_ok (i : Nat) (rows rows' : List (List Value))
    (h : mapRowsDate i rows = .ok rows') :
    rows'.length = rows.length ∧
    ∀ k, k < rows.length → ∃ r v, rows.get? k = some r ∧
      toDatetimeCell (r.getD i .missing) = .ok v ∧
      rows'.get? k = some (modifyAt i (fun _ => v) r) := by
  induction rows generalizing rows' with
  | nil => cases h; exact ⟨rfl, fun k hk => absurd hk (by simp)⟩
  | cons r rs ih =>
    unfold mapRowsDate at h
    cases hd : toDatetimeCell (r.getD i .missing) with
    | error e => rw [hd] at h; cases h
    | ok v =>
      rw [hd] at h
      cases hrest : mapRowsDate i rs with
      | error e => rw [hrest] at h; cases h
      | ok rs' =>
        rw [hrest] at h
        cases h
        obtain ⟨hlen, hpt⟩ := ih rs' hrest
        refine ⟨by simp [hlen], ?_⟩
        intro k hk
        cases k with
        | zero => exact ⟨r, v, rfl, hd, rfl⟩
        | succ k' =>
          obtain ⟨r0, v0, h1, h2, h3⟩ := hpt k' (by simpa using hk)
          exact ⟨r0, v0, h1, h2, h3⟩

theorem mapRowsDate_total (i : Nat) (rows : List (List Value))
    (hall : ∀ r ∈ rows, ∃ v, toDatetimeCell (r.getD i .missing) = .ok v) :
    ∃ rows', mapRowsDate i rows = .ok rows' := by
  induction rows with
  | nil => exact ⟨[], rfl⟩
  | cons r rs ih =>
    obtain ⟨v, hv⟩ := hall r (List.mem_cons_self r rs)
    obtain ⟨rs', hrs'⟩ := ih (fun r' hr' => hall r' (List.mem_cons_of_mem r hr'))
    exact ⟨_, by unfold mapRowsDate; rw [hv, hrs']⟩

theorem coerceDateCol_ok (d d' : DataFrame)
    (h : coerceDateCol d = .ok d') :
    ∃ i, d.cols.indexOf? "date" = some i ∧ d.cols.get? i = some "date" ∧
      d'.cols = d.cols ∧ mapRowsDate i d.rows = .ok d'.rows := by
  unfold coerceDateCol at h
  split at h
  next e heq => cases h
  next i heq =>
    split at h
    next rows hm =>
      cases h
      obtain ⟨h1, h2⟩ := findCol_ok d.cols "date" i heq
      exact ⟨i, h1, h2, rfl, hm⟩
    next e hm => cases h

theorem dropnaEssential_ok (d d' : DataFrame)
    (h : dropnaEssential d = .ok d') :
    ∃ idxs, lookupIdxs d.cols essential_cols = some idxs ∧
      d'.cols = d.cols ∧ d'.rows = d.rows.filter (keepRow idxs) := by
  unfold dropnaEssential at h
  cases hl : lookupIdxs d.cols essential_cols with
  | none => rw [hl] at h; cases h
  | some idxs =>
    rw [hl] at h
    cases h
    exact ⟨idxs, rfl, rfl, rfl⟩

theorem normalize_decompose (df ndf : DataFrame)
    (h : normalize df = .ok ndf) :
    ∃ mid, coercedStage df = .ok mid ∧ dropnaEssential mid = .ok ndf := by
  unfold normalize at h
  cases hc : coercedStage df with
  | error e => rw [hc] at h; cases h
  | ok mid => rw [hc] at h; exact ⟨mid, rfl, h⟩

theorem coercedStage_decompose (df mid : DataFrame)
    (h : coercedStage df = .ok mid) :
    ∃ d1, coerceDateCol (renameCols df) = .ok d1 ∧
      coerceNumericCols d1 = .ok mid := by
  unfold coercedStage at h
  cases hc : coerceDateCol (renameCols df) with
  | error e => rw [hc] at h; cases h
  | ok d1 => rw [hc] at h; exact ⟨d1, rfl, h⟩

theorem charDigitVal_ofNat_lt (k : Nat) (h : k < 10) :
    charDigitVal (Char.ofNat (48 + k)) = some k := by
  interval_cases k <;> rfl

theorem charDigitVal_digitChar (n : Nat) :
    charDigitVal (digitChar n) = some (n % 10) := by
  unfold digitChar
  exact charDigitVal_ofNat_lt (n % 10) (Nat.mod_lt n (by omega))

theorem isDigit_of_charDigitVal (c : Char) (n : Nat)
    (h : charDigitVal c = some n) : c.isDigit = true := by
  unfold charDigitVal at h
  split at h
  · assumption
  · cases h

theorem isDigit_digitChar (n : Nat) : (digitChar n).isDigit = true :=
  isDigit_of_charDigitVal _ _ (charDigitVal_digitChar n)

theorem isStrictISO_formatISO (y m d : Nat) :
    isStrictISO (formatISO y m d) = true := by
  unfold isStrictISO formatISO
  simp [isDigit_digitChar]

theorem daysInMonth_le_31 (y m : Nat) : daysInMonth y m ≤ 31 := by
  unfold daysInMonth
  split
  · split <;> omega
  · split <;> omega

theorem validDate_bounds (y m d : Nat) (h : validDate y m d = true) :
    1 ≤ m ∧ m ≤ 12 ∧ 1 ≤ d ∧ d ≤ 31 := by
  unfold validDate at h
  simp only [Bool.and_eq_true, decide_eq_true_eq] at h
  have := daysInMonth_le_31 y m
  omega

theorem inTsBounds_year (y m d : Nat) (h : inTsBounds y m d = true) :
    1677 ≤ y ∧ y ≤ 2262 := by
  unfold inTsBounds tripleLE minTsTriple maxTsTriple at h
  simp only [Bool.and_eq_true, Bool.or_eq_true, decide_eq_true_eq] at h
  omega

theorem parse_formatISO (y m d : Nat) (hy : y ≤ 9999)
    (hv : validDate y m d = true) :
    parseDateString (formatISO y m d) = some (y, m, d) := by
  obtain ⟨-, hm, -, hd⟩ := validDate_bounds y m d hv
  unfold parseDateString formatISO
  simp only [String.toList, charDigitVal_digitChar, Option.bind_eq_bind,
    Option.some_bind]
  have e1 : ((y / 1000 % 10 * 10 + y / 100 % 10) * 10 + y / 10 % 10) * 10 +
      y % 10 = y := by omega
  have e2 : m / 10 % 10 * 10 + m % 10 = m := by omega
  have e3 : d / 10 % 10 * 10 + d % 10 = d := by omega
  rw [e1, e2, e3, hv]
  simp

theorem parseDateString_validDate (s : String) (y m d : Nat)
    (h : parseDateString s = some (y, m, d)) : validDate y m d = true := by
  unfold parseDateString at h
  split at h
  · simp only [Option.bind_eq_bind, Option.bind_eq_some] at h
    obtain ⟨a, -, b, -, c, -, dd, -, e, -, f, -, g, -, k, -, hfin⟩ := h
    split at hfin
    · cases hfin
      assumption
    · cases hfin
  · simp only [Option.bind_eq_bind, Option.bind_eq_some] at h
    obtain ⟨a, -, b, -, c, -, dd, -, e, -, f, -, g, -, k, -, hfin⟩ := h
    split at hfin
    · cases hfin
      assumption
    · cases hfin
  · cases h

theorem dateCellTriple_some (v : Value) (y m d : Nat)
    (h : dateCellTriple v = some (y, m, d)) :
    validDate y m d = true ∧ inTsBounds y m d = true := by
  cases v with
  | num q => cases h
  | missing => cases h
  | date y' m' d' =>
    simp only [dateCellTriple] at h
    split at h
    next hcond =>
      simp only [Option.some.injEq, Prod.mk.injEq] at h
      obtain ⟨rfl, rfl, rfl⟩ := h
      simpa [Bool.and_eq_true] using hcond
    next => cases h
  | str s =>
    simp only [dateCellTriple] at h
    split at h
    next y' m' d' heq =>
      split at h
      next hts =>
        simp only [Option.some.injEq, Prod.mk.injEq] at h
        obtain ⟨rfl, rfl, rfl⟩ := h
        exact ⟨parseDateString_validDate s _ _ _ heq, hts⟩
      next => cases h
    next => cases h

theorem toDatetimeCell_shapes (v v' : Value) (h : toDatetimeCell v = .ok v') :
    (v = .missing ∧ v' = .missing) ∨
    (∃ y m d, v' = .str (formatISO y m d) ∧ dateCellTriple v = some (y, m, d)) := by
  cases v with
  | missing => exact .inl ⟨rfl, (Except.ok.inj h).symm⟩
  | num q => cases h
  | date y m d =>
    simp only [toDatetimeCell] at h
    split at h
    next hcond =>
      refine .inr ⟨y, m, d, (Except.ok.inj h).symm, ?_⟩
      simp only [dateCellTriple]
      rw [if_pos hcond]
    next => cases h
  | str s =>
    simp only [toDatetimeCell] at h
    split at h
    next y m d heq =>
      split at h
      next hts =>
        refine .inr ⟨y, m, d, (Except.ok.inj h).symm, ?_⟩
        simp only [dateCellTriple]
        rw [heq]
        simp [hts]
      next => cases h
    next => cases h

theorem outKeyCell_toDatetime (v v' : Value) (h : toDatetimeCell v = .ok v') :
    outKeyCell v' = dateCellTriple v := by
  rcases toDatetimeCell_shapes v v' h with ⟨rfl, rfl⟩ | ⟨y, m, d, rfl, hsome⟩
  · rfl
  · obtain ⟨hval, hts⟩ := dateCellTriple_some v y m d hsome
    obtain ⟨-, hy⟩ := inTsBounds_year y m d hts
    simp only [outKeyCell]
    rw [parse_formatISO y m d (by omega) hval, hsome]

theorem toDatetime_ok_str_iso (v : Value) (s : String)
    (h : toDatetimeCell v = .ok (.str s)) : isStrictISO s = true := by
  rcases toDatetimeCell_shapes _ _ h with ⟨-, h'⟩ | ⟨y, m, d, h', -⟩
  · cases h'
  · cases h'
    exact isStrictISO_formatISO y m d

theorem isNA_false_iff (v : Value) : (!(isNA v)) = true ↔ v ≠ .missing := by
  cases v <;> simp [isNA]

theorem keepRow_eq_label (cols : List String) (cs : List String)
    (idxs : List Nat) (h : lookupIdxs cols cs = some idxs) (r : List Value) :
    keepRow idxs r =
      cs.any (fun c => !(isNA (cellByLabel cols c r))) := by
  induction cs generalizing idxs with
  | nil =>
    cases h
    rfl
  | cons c cs ih =>
    unfold lookupIdxs at h
    cases hidx : cols.indexOf? c with
    | none =>
      simp only [hidx] at h
      exact Option.noConfusion h
    | some i =>
      cases hrest : lookupIdxs cols cs with
      | none =>
        simp only [hidx, hrest] at h
        exact Option.noConfusion h
      | some is =>
        simp only [hidx, hrest] at h
        cases h
        simp only [keepRow, List.any_cons]
        rw [show cellByLabel cols c r = r.getD i .missing by
          unfold cellByLabel; rw [hidx]]
        have := ih is hrest
        unfold keepRow at this
        rw [this]

theorem mem_keys_of_lookup (l : List (String × String)) (c e : String)
    (h : l.lookup c = some e) : c ∈ l.map Prod.fst := by
  induction l with
  | nil => cases h
  | cons p l ih =>
    cases p with
    | mk k v =>
      rw [List.lookup_cons] at h
      cases hbeq : (c == k) with
      | true =>
        rw [hbeq] at h
        simp only [List.map_cons, List.mem_cons]
        exact .inl (eq_of_beq hbeq)
      | false =>
        rw [hbeq] at h
        simp only [List.map_cons, List.mem_cons]
        exact .inr (ih h)

theorem renameCol_not_source (c : String) (h : c ∉ renameSourceLabels) :
    renameCol c = c := by
  unfold renameCol
  cases hl : renameTable.lookup c with
  | none => rfl
  | some e => exact absurd (mem_keys_of_lookup renameTable c e hl) h

theorem getD_modifyAt_const (i : Nat) (v : Value) (r : List Value) :
    (modifyAt i (fun _ => v) r).getD i .missing =
      if i < r.length then v else Value.missing := by
  induction r generalizing i with
  | nil => cases i <;> rfl
  | cons v0 t ih =>
    cases i with
    | zero => simp [modifyAt]
    | succ n =>
      simp only [modifyAt, List.getD_cons_succ, List.length_cons]
      rw [ih n]
      by_cases hn : n < t.length
      · rw [if_pos hn, if_pos (by omega)]
      · rw [if_neg hn, if_neg (by omega)]

/-! ### Claim theorems -/

/-- C2 counterexample: the claim says every input outside the literal set
`{"none", "no", "false", ""}` and different from `"hfq"` maps to `"qfq"`,
but the code lower-cases first, so `"NONE"` — outside that set and not
`"hfq"` — maps to the empty adjustment instead. -/
theorem c2_counterexample :
    mapAdjust "NONE" = "" ∧ mapAdjust "NONE" ≠ "qfq" ∧
    "NONE" ∉ (["none", "no", "false", ""] : List String) ∧ "NONE" ≠ "hfq" :=
  ⟨rfl, by decide, by decide, by decide⟩

/-- C2 (amended): the adjustment mapper is total with no error path and
decides by the lower-cased selector: lowercase form in
`{"none", "no", "false", ""}` maps to the empty provider parameter,
lowercase form `"hfq"` maps to `"hfq"`, and every other input maps to
`"qfq"`. -/
theorem c2_adjust_mapper (s : String) :
    (mapAdjust s = "" ∨ mapAdjust s = "hfq" ∨ mapAdjust s = "qfq") ∧
    (lowerStr s ∈ (["none", "no", "false", ""] : List String) →
      mapAdjust s = "") ∧
    (lowerStr s = "hfq" → mapAdjust s = "hfq") ∧
    (lowerStr s ∉ (["none", "no", "false", ""] : List String) →
      lowerStr s ≠ "hfq" → mapAdjust s = "qfq") := by
  unfold mapAdjust
  by_cases h1 : lowerStr s ∈ (["none", "no", "false", ""] : List String)
  · rw [if_pos (List.elem_iff.mpr h1)]
    exact ⟨.inl rfl, fun _ => rfl, fun h2 => by simp [h2] at h1,
      fun h2 _ => absurd h1 h2⟩
  · rw [if_neg (fun hc => h1 (List.elem_iff.mp hc))]
    by_cases h2 : lowerStr s = "hfq"
    · rw [if_pos h2]
      exact ⟨.inr (.inl rfl), fun hm => absurd hm h1, fun _ => rfl,
        fun _ hne => absurd h2 hne⟩
    · rw [if_neg h2]
      exact ⟨.inr (.inr rfl), fun hm => absurd hm h1,
        fun hh => absurd hh h2, fun _ _ => rfl⟩

/-- C2 witness: the amended mapping evaluated at `"qfq"`. -/
theorem c2_adjust_mapper_witness : mapAdjust "qfq" = "qfq" :=
  (c2_adjust_mapper "qfq").2.2.2 (by decide) (by decide)

/-- C4: when the provider returns an empty table, the run prints the
fetching message and the empty-result error message and nothing else — in
particular it writes no file, creates no directory, and returns normally
(the trace is a value, not an exception). -/
theorem c4_empty_result (scriptDir symbol adjust endDate : String)
    (dirExists : Bool) (fetch : FetchParams → FetchOutcome) (df : DataFrame)
    (hf : fetch ⟨symbol, "daily", "19900101", endDate, mapAdjust adjust⟩ = .ok df)
    (he : df.empty = true) :
    get_stock_data scriptDir symbol adjust endDate dirExists fetch =
      [.printed (fetchingMsg symbol adjust), .printed (emptyMsg symbol)] ∧
    ∀ e ∈ get_stock_data scriptDir symbol adjust endDate dirExists fetch,
      (∀ p file, e ≠ .wroteFile p file) ∧ (∀ p, e ≠ .madeDir p) := by
  have heq : get_stock_data scriptDir symbol adjust endDate dirExists fetch =
      [.printed (fetchingMsg symbol adjust), .printed (emptyMsg symbol)] := by
    unfold get_stock_data
    rw [hf]
    simp [he]
  refine ⟨heq, ?_⟩
  rw [heq]
  intro e he'
  rcases List.mem_cons.mp he' with rfl | he'
  · exact ⟨by simp, by simp⟩
  rcases List.mem_cons.mp he' with rfl | he'
  · exact ⟨by simp, by simp⟩
  · cases he'

/-- C4 witness: a run against a provider returning an empty table. -/
theorem c4_empty_result_witness :
    get_stock_data "/app" "600519" "qfq" "20251012" true
        (fun _ => .ok emptyDf) =
      [.printed (fetchingMsg "600519" "qfq"), .printed (emptyMsg "600519")] ∧
    ∀ e ∈ get_stock_data "/app" "600519" "qfq" "20251012" true
        (fun _ => .ok emptyDf),
      (∀ p file, e ≠ .wroteFile p file) ∧ (∀ p, e ≠ .madeDir p) :=
  c4_empty_result "/app" "600519" "qfq" "20251012" true _ emptyDf rfl rfl

/-- C5: when the provider call raises, or the normalizer raises on a
non-empty table, the run prints the diagnostic message and the full trace,
writes no file, creates no directory, and returns normally (the trace is a
value, not a propagated exception). -/
theorem c5_exception_caught (scriptDir symbol adjust endDate : String)
    (dirExists : Bool) (fetch : FetchParams → FetchOutcome)
    (hx : (∃ m, fetch ⟨symbol, "daily", "19900101", endDate,
              mapAdjust adjust⟩ = .exn m) ∨
          (∃ df, fetch ⟨symbol, "daily", "19900101", endDate,
              mapAdjust adjust⟩ = .ok df ∧ df.empty = false ∧
            ∃ m, normalize df = .error m)) :
    (∃ m, get_stock_data scriptDir symbol adjust endDate dirExists fetch =
      [.printed (fetchingMsg symbol adjust), .printed (exnMsg m),
       .printedTrace]) ∧
    ∀ e ∈ get_stock_data scriptDir symbol adjust endDate dirExists fetch,
      (∀ p file, e ≠ .wroteFile p file) ∧ (∀ p, e ≠ .madeDir p) := by
  have heq : ∃ m,
      get_stock_data scriptDir symbol adjust endDate dirExists fetch =
      [.printed (fetchingMsg symbol adjust), .printed (exnMsg m),
       .printedTrace] := by
    rcases hx with ⟨m, hm⟩ | ⟨df, hdf, hemp, m, hm⟩
    · exact ⟨m, by unfold get_stock_data; rw [hm]⟩
    · refine ⟨m, ?_⟩
      unfold get_stock_data
      rw [hdf]
      simp [hm, hemp]
  obtain ⟨m, hm⟩ := heq
  refine ⟨⟨m, hm⟩, ?_⟩
  rw [hm]
  intro e he'
  rcases List.mem_cons.mp he' with rfl | he'
  · exact ⟨by simp, by simp⟩
  rcases List.mem_cons.mp he' with rfl | he'
  · exact ⟨by simp, by simp⟩
  rcases List.mem_cons.mp he' with rfl | he'
  · exact ⟨by simp, by simp⟩
  · cases he'

/-- C5 witness: a run whose provider call raises. -/
theorem c5_exception_caught_witness :
    (∃ m, get_stock_data "/app" "600519" "qfq" "20251012" true
        (fun _ => .exn "network down") =
      [.printed (fetchingMsg "600519" "qfq"), .printed (exnMsg m),
       .printedTrace]) ∧
    ∀ e ∈ get_stock_data "/app" "600519" "qfq" "20251012" true
        (fun _ => .exn "network down"),
      (∀ p file, e ≠ .wroteFile p file) ∧ (∀ p, e ≠ .madeDir p) :=
  c5_exception_caught "/app" "600519" "qfq" "20251012" true _
    (.inl ⟨"network down", rfl⟩)

/-- C8: the CLI parser requires `--code`, defaults `--adjust` to `"qfq"`,
accepts exactly the enumerated choices, and rejects anything else before
`get_stock_data` can run (the run is not produced on a parse error). -/
theorem c8_cli_parsing :
    (∀ a', ∃ e, parseArgs none a' = .error e) ∧
    (∀ c, parseArgs (some c) none = .ok ⟨c, "qfq"⟩) ∧
    (∀ c a, a ∈ adjustChoices → parseArgs (some c) (some a) = .ok ⟨c, a⟩) ∧
    (∀ c a, a ∉ adjustChoices → ∃ e, parseArgs (some c) (some a) = .error e) ∧
    (∀ c a scriptDir endDate dirExists fetch, a ∉ adjustChoices →
      ∃ e, mainRun (some c) (some a) scriptDir endDate dirExists fetch =
        .error e) := by
  have hok : ∀ c a, a ∈ adjustChoices →
      parseArgs (some c) (some a) = .ok ⟨c, a⟩ := by
    intro c a ha
    simp only [parseArgs, Option.getD_some]
    rw [if_pos (show adjustChoices.contains a = true from List.elem_iff.mpr ha)]
  have herr : ∀ c a, a ∉ adjustChoices →
      ∃ e, parseArgs (some c) (some a) = .error e := by
    intro c a ha
    have heqn : parseArgs (some c) (some a) =
        .error ("argument --adjust: invalid choice: " ++ a) := by
      simp only [parseArgs, Option.getD_some]
      rw [if_neg (show ¬adjustChoices.contains a = true from
        fun hc => ha (List.elem_iff.mp hc))]
    exact ⟨_, heqn⟩
  refine ⟨fun a' => ⟨_, rfl⟩, ?_, hok, herr, ?_⟩
  · intro c
    simp only [parseArgs, Option.getD_none]
    rw [if_pos (show adjustChoices.contains "qfq" = true by decide)]
  · intro c a scriptDir endDate dirExists fetch ha
    obtain ⟨e, he⟩ := herr c a ha
    exact ⟨e, by unfold mainRun; rw [he]⟩

/-- C6: every file-writing effect of a run writes to the deterministic
path `<scriptDir>/A_data/{symbol}_{adj_suffix}_A_data.csv`, where the
suffix is `no_adj` for the empty resolved adjustment, `hfq` for `hfq` and
`qfq` for `qfq`; the path depends only on the script directory, the
symbol and the adjustment selector, so re-running with the same arguments
yields the same path. -/
theorem c6_output_path (scriptDir symbol adjust endDate : String)
    (dirExists : Bool) (fetch : FetchParams → FetchOutcome)
    (path : String) (file : CsvFile)
    (h : Effect.wroteFile path file ∈
      get_stock_data scriptDir symbol adjust endDate dirExists fetch) :
    path = scriptDir ++ "/A_data/" ++ symbol ++ "_" ++
      adjSuffix (mapAdjust adjust) ++ "_A_data.csv" ∧
    adjSuffix "" = "no_adj" ∧ adjSuffix "hfq" = "hfq" ∧
    adjSuffix "qfq" = "qfq" ∧ mapAdjust "none" = "" := by
  refine ⟨?_, rfl, rfl, rfl, rfl⟩
  unfold get_stock_data at h
  cases hf : fetch ⟨symbol, "daily", "19900101", endDate, mapAdjust adjust⟩ with
  | exn e => rw [hf] at h; simp at h
  | ok df =>
    rw [hf] at h
    by_cases hemp : df.empty
    · simp [hemp] at h
    · rw [Bool.not_eq_true] at hemp
      cases hn : normalize df with
      | error e => simp [hemp, hn] at h
      | ok ndf =>
        cases hd : dirExists with
        | true =>
          simp [hemp, hn, hd] at h
          rw [h.1, String.append_assoc scriptDir "/A_data" "/"]
          rfl
        | false =>
          simp [hemp, hn, hd] at h
          rw [h.1, String.append_assoc scriptDir "/A_data" "/"]
          rfl

/-- C6 witness: a successful `adjust="none"` run writes to
`/app/A_data/600519_no_adj_A_data.csv`. -/
theorem c6_output_path_witness :
    "/app/A_data/600519_no_adj_A_data.csv" =
      "/app" ++ "/A_data/" ++ "600519" ++ "_" ++
        adjSuffix (mapAdjust "none") ++ "_A_data.csv" ∧
    adjSuffix "" = "no_adj" ∧ adjSuffix "hfq" = "hfq" ∧
    adjSuffix "qfq" = "qfq" ∧ mapAdjust "none" = "" :=
  c6_output_path "/app" "600519" "none" "20251012" true
    (fun _ => .ok sampleDf) "/app/A_data/600519_no_adj_A_data.csv"
    (to_csv sampleNdf) (by decide)

/-- C1: when the normalizer succeeds, the written rows are exactly the
coerced rows filtered by "at least one of open, high, low, close, volume
is present": a row is removed iff all five essential cells are missing
after numeric coercion, and retained iff at least one is present. -/
theorem c1_drop_iff_all_essential_missing (df ndf : DataFrame)
    (h : normalize df = .ok ndf) :
    ∃ mid, coercedStage df = .ok mid ∧ ndf.cols = mid.cols ∧
      ndf.rows = mid.rows.filter
        (fun r => essential_cols.any
          (fun c => !(isNA (cellByLabel mid.cols c r)))) ∧
      ∀ r, r ∈ ndf.rows ↔ r ∈ mid.rows ∧
        ¬(∀ c ∈ essential_cols, cellByLabel mid.cols c r = .missing) := by
  obtain ⟨mid, hmid, hdrop⟩ := normalize_decompose df ndf h
  obtain ⟨idxs, hidxs, hcols, hrows⟩ := dropnaEssential_ok mid ndf hdrop
  have hkeep := keepRow_eq_label mid.cols essential_cols idxs hidxs
  refine ⟨mid, hmid, hcols, ?_, ?_⟩
  · rw [hrows]
    exact List.filter_congr (fun r _ => hkeep r)
  · intro r
    rw [hrows, List.mem_filter, hkeep r]
    constructor
    · rintro ⟨hm, hany⟩
      refine ⟨hm, ?_⟩
      obtain ⟨c, hc, hne⟩ := List.any_eq_true.mp hany
      intro hall
      exact (isNA_false_iff _).mp hne (hall c hc)
    · rintro ⟨hm, hnall⟩
      refine ⟨hm, ?_⟩
      rw [List.any_eq_true]
      by_contra hnone
      push_neg at hnone
      refine hnall (fun c hc => ?_)
      have := hnone c hc
      by_contra hne
      exact this ((isNA_false_iff _).mpr hne)

/-- C1 witness: on the two-row sample table the all-missing second row is
dropped and the first row is retained. -/
theorem c1_drop_iff_all_essential_missing_witness :
    ∃ mid, coercedStage sampleDf = .ok mid ∧ sampleNdf.cols = mid.cols ∧
      sampleNdf.rows = mid.rows.filter
        (fun r => essential_cols.any
          (fun c => !(isNA (cellByLabel mid.cols c r)))) ∧
      ∀ r, r ∈ sampleNdf.rows ↔ r ∈ mid.rows ∧
        ¬(∀ c ∈ essential_cols, cellByLabel mid.cols c r = .missing) :=
  c1_drop_iff_all_essential_missing sampleDf sampleNdf rfl

/-- C7: numeric coercion is total — every cell becomes a number or an
explicit missing value (parseable strings become numbers, unparseable
ones become missing, none of it raises) — and after a successful
normalization every cell of each of the ten numeric columns is numeric or
missing. -/
theorem c7_numeric_coercion :
    (∀ v, numOrNA (toNumericCell v) = true) ∧
    (∀ s, parseSigned s = none → toNumericCell (.str s) = .missing) ∧
    (∀ s q, parseSigned s = some q → toNumericCell (.str s) = .num q) ∧
    (∀ df ndf, normalize df = .ok ndf → ∀ c ∈ numeric_cols, ∀ r ∈ ndf.rows,
      numOrNA (cellByLabel ndf.cols c r) = true) := by
  refine ⟨numOrNA_toNumericCell, ?_, ?_, ?_⟩
  · intro s hs
    simp [toNumericCell, hs]
  · intro s q hs
    simp [toNumericCell, hs]
  · intro df ndf h c hc r hr
    obtain ⟨mid, hmid, hdrop⟩ := normalize_decompose df ndf h
    obtain ⟨d1, hd1, hnum⟩ := coercedStage_decompose df mid hmid
    obtain ⟨idxs, -, hcols, hrows⟩ := dropnaEssential_ok mid ndf hdrop
    obtain ⟨hcols2, -⟩ := foldl_coerce_cols_rows numeric_cols d1 mid hnum
    obtain ⟨i, hidx, hprop⟩ :=
      foldl_coerce_establishes numeric_cols d1 mid hnum c hc
    have hrmem : r ∈ mid.rows := by
      rw [hrows] at hr
      exact (List.mem_filter.mp hr).1
    have : cellByLabel ndf.cols c r = r.getD i .missing := by
      unfold cellByLabel
      rw [hcols, hcols2, hidx]
    rw [this]
    exact hprop r hrmem

/-- C7 witness: the `open` cell of the surviving sample row is numeric. -/
theorem c7_numeric_coercion_witness :
    numOrNA (cellByLabel sampleNdf.cols "open"
      [Value.str "2024-01-02", .num 10, .num 11, .num 12, .num 9,
       .num 1000, .num 5, .num 1, .num 2, .num 3, .num 4]) = true :=
  c7_numeric_coercion.2.2.2 sampleDf sampleNdf rfl "open" (by decide) _
    (by decide)

/-- C3 counterexample: a non-empty provider response with a twelfth
column and a missing date cell in a surviving row still writes a file,
but the header row is not the eleven normalized labels and the written
date field of that row is the empty string, not a `YYYY-MM-DD` date. -/
theorem c3_counterexample :
    ∃ file, Effect.wroteFile "/app/A_data/600519_qfq_A_data.csv" file ∈
        get_stock_data "/app" "600519" "qfq" "20251012" true
          (fun _ => .ok extraColMissingDateDf) ∧
      file.headerRow ≠ normalizedCols ∧
      ∃ row ∈ file.dataRows, row.getD 0 "" = "" :=
  ⟨to_csv ⟨normalizedCols ++ ["extra"],
    [[.missing, .num 1, .num 2, .num 3, .num 4, .num 5, .num 6, .num 7,
      .num 8, .num 9, .num 10, .str "keep"]]⟩, by decide, by decide, by decide⟩

/-- C3 (amended): for every non-empty provider response whose columns are
exactly the eleven source-locale labels in the provider's order and whose
date cells all resolve to dates, the run writes a CSV whose header row is
exactly the eleven normalized labels in fixed order, UTF-8 encoded, with
no row-index column, and every written row's date field is a string in
strict `YYYY-MM-DD` form. -/
theorem c3_csv_shape (scriptDir symbol adjust endDate : String)
    (dirExists : Bool) (fetch : FetchParams → FetchOutcome) (df : DataFrame)
    (hf : fetch ⟨symbol, "daily", "19900101", endDate, mapAdjust adjust⟩ =
      .ok df)
    (hcols : df.cols = sourceCols) (hne : df.rows ≠ [])
    (hdates : ∀ r ∈ df.rows, ∃ s,
      toDatetimeCell (r.getD 0 .missing) = .ok (.str s)) :
    ∃ path file,
      Effect.wroteFile path file ∈
        get_stock_data scriptDir symbol adjust endDate dirExists fetch ∧
      file.headerRow = normalizedCols ∧ file.encoding = "utf-8" ∧
      file.hasIndexCol = false ∧
      ∀ row ∈ file.dataRows, isStrictISO (row.getD 0 "") = true := by
  have hren : renameCols df = ⟨normalizedCols, df.rows⟩ := by
    unfold renameCols
    rw [hcols]
    rfl
  obtain ⟨rows1, hrows1⟩ := mapRowsDate_total 0 df.rows
    (fun r hr => (hdates r hr).elim (fun s hs => ⟨.str s, hs⟩))
  have hdateEq : coerceDateCol ⟨normalizedCols, df.rows⟩ =
      .ok ⟨normalizedCols, rows1⟩ := by
    have hstep : coerceDateCol ⟨normalizedCols, df.rows⟩ =
        match mapRowsDate 0 df.rows with
        | .ok rows => .ok ⟨normalizedCols, rows⟩
        | .error e => .error e := rfl
    rw [hstep, hrows1]
  obtain ⟨hlen1, hpt1⟩ := mapRowsDate_ok 0 df.rows rows1 hrows1
  have hrows1date : ∀ k, k < rows1.length → ∃ s,
      (rows1.getD k []).getD 0 .missing = .str s ∧ isStrictISO s = true := by
    intro k hk
    obtain ⟨r, v, hget, hcell, hget'⟩ := hpt1 k (by omega)
    have hrmem : r ∈ df.rows := List.mem_iff_get?.mpr ⟨k, hget⟩
    obtain ⟨s, hs⟩ := hdates r hrmem
    have hv : v = .str s := Except.ok.inj (hcell.symm.trans hs)
    subst hv
    have hiso := toDatetime_ok_str_iso _ _ hcell
    have hgd : rows1.getD k [] = modifyAt 0 (fun _ => Value.str s) r := by
      rw [List.getD_eq_getElem?_getD, ← List.get?_eq_getElem?, hget']
      rfl
    cases r with
    | nil => exact Value.noConfusion (Except.ok.inj hcell)
    | cons v0 t =>
      refine ⟨s, ?_, hiso⟩
      rw [hgd]
      rfl
  obtain ⟨rows2, hnum⟩ : ∃ rows2, coerceNumericCols ⟨normalizedCols, rows1⟩ =
      .ok ⟨normalizedCols, rows2⟩ := ⟨_, rfl⟩
  obtain ⟨-, hlen2⟩ := foldl_coerce_cols_rows numeric_cols _ _ hnum
  have hpres := foldl_coerce_preserves_pos numeric_cols
    ⟨normalizedCols, rows1⟩ ⟨normalizedCols, rows2⟩ hnum 0
    (by
      have hdec : ∀ c ∈ numeric_cols, normalizedCols.get? 0 ≠ some c := by
        decide
      exact hdec)
  have hrows2date : ∀ r ∈ rows2, ∃ s,
      r.getD 0 .missing = .str s ∧ isStrictISO s = true := by
    intro r hr
    obtain ⟨k, hk⟩ := List.mem_iff_get?.mp hr
    have hklt : k < rows2.length := by
      by_contra hge
      rw [List.get?_eq_getElem?, List.getElem?_eq_none (by omega)] at hk
      cases hk
    have h2 : rows2.getD k [] = r := by
      rw [List.getD_eq_getElem?_getD, ← List.get?_eq_getElem?, hk]
      rfl
    have hk1 : k < rows1.length := by
      have : rows2.length = rows1.length := hlen2
      omega
    obtain ⟨s, hcell, hiso⟩ := hrows1date k hk1
    refine ⟨s, ?_, hiso⟩
    have hp := hpres k
    rw [show (⟨normalizedCols, rows2⟩ : DataFrame).rows = rows2 from rfl,
      show (⟨normalizedCols, rows1⟩ : DataFrame).rows = rows1 from rfl] at hp
    rw [← h2, hp, hcell]
  have hcs : coercedStage df = .ok ⟨normalizedCols, rows2⟩ := by
    have hstep : coercedStage df =
        match coerceDateCol (renameCols df) with
        | .error e => .error e
        | .ok d1 => coerceNumericCols d1 := rfl
    rw [hstep, hren, hdateEq]
    exact hnum
  have hdropEq : dropnaEssential ⟨normalizedCols, rows2⟩ =
      .ok ⟨normalizedCols, rows2.filter (keepRow [1, 3, 4, 2, 5])⟩ := rfl
  have hnorm : normalize df =
      .ok ⟨normalizedCols, rows2.filter (keepRow [1, 3, 4, 2, 5])⟩ := by
    have hstep : normalize df =
        match coercedStage df with
        | .error e => .error e
        | .ok d2 => dropnaEssential d2 := rfl
    rw [hstep, hcs]
    exact hdropEq
  have hempty : df.empty = false := by
    unfold DataFrame.empty
    rw [hcols]
    cases hr : df.rows with
    | nil => exact absurd hr hne
    | cons a l => rfl
  refine ⟨scriptDir ++ "/A_data" ++ "/" ++ symbol ++ "_" ++
      adjSuffix (mapAdjust adjust) ++ "_A_data.csv",
    to_csv ⟨normalizedCols, rows2.filter (keepRow [1, 3, 4, 2, 5])⟩,
    ?_, rfl, rfl, rfl, ?_⟩
  · unfold get_stock_data
    rw [hf]
    simp [hempty, hnorm]
  · intro row hrow
    obtain ⟨r, hrmem, rfl⟩ := List.mem_map.mp hrow
    have hr2 : r ∈ rows2 := (List.mem_filter.mp hrmem).1
    obtain ⟨s, hcell, hiso⟩ := hrows2date r hr2
    cases r with
    | nil => exact Value.noConfusion hcell
    | cons v0 t =>
      have hv0 : v0 = .str s := hcell
      subst hv0
      exact hiso

/-- C3 witness: the two-row sample response yields a CSV with the eleven
normalized headers and ISO dates. -/
theorem c3_csv_shape_witness :
    ∃ path file,
      Effect.wroteFile path file ∈
        get_stock_data "/app" "600519" "qfq" "20251012" true
          (fun _ => .ok sampleDf) ∧
      file.headerRow = normalizedCols ∧ file.encoding = "utf-8" ∧
      file.hasIndexCol = false ∧
      ∀ row ∈ file.dataRows, isStrictISO (row.getD 0 "") = true :=
  c3_csv_shape "/app" "600519" "qfq" "20251012" true (fun _ => .ok sampleDf)
    sampleDf rfl rfl (by decide) (by
      intro r hr
      rcases List.mem_cons.mp hr with rfl | hr
      · exact ⟨"2024-01-02", rfl⟩
      rcases List.mem_cons.mp hr with rfl | hr
      · exact ⟨"2024-01-03", rfl⟩
      · cases hr)

/-- C9 counterexample: a response column labelled `turnover` — not one of
the eleven source labels of the rename table — does not pass through the
normalizer unchanged: the numeric-coercion loop rewrites its unparseable
cell to missing, so the written CSV row differs from the fetched one in
that column. -/
theorem c9_counterexample :
    normalize rawTurnoverDf = .ok ⟨normalizedCols,
      [[.str "2024-01-02", .num 1, .num 2, .num 3, .num 4, .num 5,
        .num 6, .num 7, .num 8, .num 9, .missing]]⟩ ∧
    rawTurnoverDf.cols.get? 10 = some "turnover" ∧
    "turnover" ∉ renameSourceLabels ∧
    (rawTurnoverDf.rows.getD 0 []).getD 10 .missing = .str "abc" ∧
    ((⟨normalizedCols,
      [[.str "2024-01-02", .num 1, .num 2, .num 3, .num 4, .num 5,
        .num 6, .num 7, .num 8, .num 9, .missing]]⟩ : DataFrame).rows.getD
          0 []).getD 10 .missing = .missing ∧
    (to_csv ⟨normalizedCols,
      [[.str "2024-01-02", .num 1, .num 2, .num 3, .num 4, .num 5,
        .num 6, .num 7, .num 8, .num 9, .missing]]⟩).dataRows.getD 0 [] ≠
      (to_csv rawTurnoverDf).dataRows.getD 0 [] :=
  ⟨rfl, rfl, by decide, rfl, rfl, by decide⟩

/-- C9 (amended): a response column whose label is neither one of the
eleven source labels of the rename table nor one of the eleven normalized
target labels is neither renamed nor dropped nor modified: when the
normalizer succeeds it keeps its position and label, appears in the
written CSV header, and the coercion is positional — row `k` of the
coerced table carries that column's cell unchanged from row `k` of the
response, and the retained rows are a subsequence of those coerced rows,
so every retained row keeps the cell of the fetched row it derives
from. -/
theorem c9_passthrough_column (df ndf : DataFrame) (c : String) (i : Nat)
    (h : normalize df = .ok ndf)
    (hc : df.cols.get? i = some c)
    (h1 : c ∉ renameSourceLabels) (h2 : c ∉ normalizedCols) :
    ndf.cols.get? i = some c ∧
    (to_csv ndf).headerRow.get? i = some c ∧
    ∃ mid, coercedStage df = .ok mid ∧
      mid.rows.length = df.rows.length ∧
      ndf.rows.Sublist mid.rows ∧
      (∀ k, k < df.rows.length →
        (mid.rows.getD k []).getD i .missing =
          (df.rows.getD k []).getD i .missing) ∧
      ∀ r' ∈ ndf.rows, ∃ r ∈ df.rows,
        r'.getD i .missing = r.getD i .missing := by
  obtain ⟨mid, hmid, hdrop⟩ := normalize_decompose df ndf h
  obtain ⟨d1, hd1, hnum⟩ := coercedStage_decompose df mid hmid
  obtain ⟨di, hdi, hdate_lbl, hcols1, hmap⟩ := coerceDateCol_ok _ _ hd1
  obtain ⟨hcols2, hlen2⟩ := foldl_coerce_cols_rows numeric_cols d1 mid hnum
  obtain ⟨idxs, -, hcols3, hrows3⟩ := dropnaEssential_ok mid ndf hdrop
  have hrencols : (renameCols df).cols = df.cols.map renameCol := rfl
  have hreni : (renameCols df).cols.get? i = some c := by
    rw [hrencols, List.get?_map, hc, Option.map_some']
    rw [renameCol_not_source c h1]
  have hndfcols : ndf.cols = (renameCols df).cols := by
    rw [hcols3, hcols2, hcols1]
  have hgoal1 : ndf.cols.get? i = some c := by rw [hndfcols]; exact hreni
  have hdiff : di ≠ i := by
    intro hdieq
    rw [hdieq, hreni] at hdate_lbl
    have : c = "date" := Option.some.inj hdate_lbl
    rw [this] at h2
    exact h2 (by decide)
  have hj : ∀ c' ∈ numeric_cols, d1.cols.get? i ≠ some c' := by
    intro c' hc' hcontra
    rw [hcols1, hreni] at hcontra
    have : c = c' := Option.some.inj hcontra
    have hsubn : ∀ x ∈ numeric_cols, x ∈ normalizedCols := by decide
    exact h2 (this ▸ hsubn c' hc')
  obtain ⟨hlen1, hpt1⟩ := mapRowsDate_ok di (renameCols df).rows d1.rows hmap
  have hrenrows : (renameCols df).rows = df.rows := rfl
  have hlen : mid.rows.length = df.rows.length := by
    rw [hlen2, hlen1, hrenrows]
  have hsub : ndf.rows.Sublist mid.rows := by
    rw [hrows3]
    exact List.filter_sublist mid.rows
  have hpos : ∀ k, k < df.rows.length →
      (mid.rows.getD k []).getD i .missing =
        (df.rows.getD k []).getD i .missing := by
    intro k hk
    have hnumpres :=
      foldl_coerce_preserves_pos numeric_cols d1 mid hnum i hj k
    obtain ⟨r, v, hget, hcell, hget'⟩ := hpt1 k (by rw [hrenrows]; omega)
    have hd1k : d1.rows.getD k [] = modifyAt di (fun _ => v) r := by
      rw [List.getD_eq_getElem?_getD, ← List.get?_eq_getElem?, hget']
      rfl
    have hdfk : df.rows.getD k [] = r := by
      rw [hrenrows] at hget
      rw [List.getD_eq_getElem?_getD, ← List.get?_eq_getElem?, hget]
      rfl
    rw [hnumpres, hd1k, hdfk, getD_modifyAt_ne di i _ _ hdiff]
  refine ⟨hgoal1, hgoal1, mid, hmid, hlen, hsub, hpos, ?_⟩
  intro r' hr'
  obtain ⟨k, hk⟩ := List.mem_iff_get?.mp (hsub.subset hr')
  have hklt : k < mid.rows.length := by
    by_contra hge
    rw [List.get?_eq_getElem?, List.getElem?_eq_none (by omega)] at hk
    cases hk
  have hmidk : mid.rows.getD k [] = r' := by
    rw [List.getD_eq_getElem?_getD, ← List.get?_eq_getElem?, hk]
    rfl
  have hkdf : k < df.rows.length := by omega
  refine ⟨df.rows.getD k [], ?_, ?_⟩
  · have hgd : df.rows.getD k [] = df.rows.get ⟨k, hkdf⟩ := by
      rw [List.getD_eq_getElem _ _ hkdf]
      rfl
    rw [hgd]
    exact List.get_mem df.rows k hkdf
  · rw [← hmidk]
    exact hpos k hkdf

/-- C9 witness: an extra `备注` column passes through a successful
normalization unchanged, row by row. -/
theorem c9_passthrough_column_witness :
    extraNoteNdf.cols.get? 11 = some "备注" ∧
    (to_csv extraNoteNdf).headerRow.get? 11 = some "备注" ∧
    ∃ mid, coercedStage extraNoteDf = .ok mid ∧
      mid.rows.length = extraNoteDf.rows.length ∧
      extraNoteNdf.rows.Sublist mid.rows ∧
      (∀ k, k < extraNoteDf.rows.length →
        (mid.rows.getD k []).getD 11 .missing =
          (extraNoteDf.rows.getD k []).getD 11 .missing) ∧
      ∀ r' ∈ extraNoteNdf.rows, ∃ r ∈ extraNoteDf.rows,
        r'.getD 11 .missing = r.getD 11 .missing :=
  c9_passthrough_column extraNoteDf extraNoteNdf "备注" 11 rfl rfl
    (by decide) (by decide)

/-- C10: the normalizer never reorders rows: the output rows form a
sublist (a subsequence in the original relative order) of the positionally
coerced input rows — row `k` of the coerced table comes from row `k` of
the response and resolves to the same date — so a response sorted
ascending by date yields an output sorted ascending by date. -/
theorem c10_order_preserved (df ndf : DataFrame)
    (h : normalize df = .ok ndf) :
    ∃ mid i, coercedStage df = .ok mid ∧
      (renameCols df).cols.indexOf? "date" = some i ∧
      ndf.rows.Sublist mid.rows ∧
      mid.rows.length = df.rows.length ∧
      (∀ k, k < df.rows.length →
        outDateKey i (mid.rows.getD k []) =
          rawDateKey i (df.rows.getD k [])) ∧
      (df.rows.Pairwise
          (fun r1 r2 => keyLE (rawDateKey i r1) (rawDateKey i r2)) →
        ndf.rows.Pairwise
          (fun r1 r2 => keyLE (outDateKey i r1) (outDateKey i r2))) := by
  obtain ⟨mid, hmid, hdrop⟩ := normalize_decompose df ndf h
  obtain ⟨d1, hd1, hnum⟩ := coercedStage_decompose df mid hmid
  obtain ⟨di, hdi, hdate_lbl, hcols1, hmap⟩ := coerceDateCol_ok _ _ hd1
  obtain ⟨hcols2, hlen2⟩ := foldl_coerce_cols_rows numeric_cols d1 mid hnum
  obtain ⟨idxs, -, -, hrows3⟩ := dropnaEssential_ok mid ndf hdrop
  obtain ⟨hlen1, hpt1⟩ := mapRowsDate_ok di (renameCols df).rows d1.rows hmap
  have hrenrows : (renameCols df).rows = df.rows := rfl
  have hlen : mid.rows.length = df.rows.length := by
    rw [hlen2, hlen1, hrenrows]
  have hsub : ndf.rows.Sublist mid.rows := by
    rw [hrows3]
    exact List.filter_sublist mid.rows
  have hj : ∀ c' ∈ numeric_cols, d1.cols.get? di ≠ some c' := by
    intro c' hc' hcontra
    rw [hcols1, hdate_lbl] at hcontra
    have hnodate : ∀ x ∈ numeric_cols, x ≠ "date" := by decide
    exact hnodate c' hc' (Option.some.inj hcontra).symm
  have hkey : ∀ k, k < df.rows.length →
      outDateKey di (mid.rows.getD k []) =
        rawDateKey di (df.rows.getD k []) := by
    intro k hk
    have hnumpres :=
      foldl_coerce_preserves_pos numeric_cols d1 mid hnum di hj k
    obtain ⟨r, v, hget, hcell, hget'⟩ := hpt1 k (by rw [hrenrows]; omega)
    have hd1k : d1.rows.getD k [] = modifyAt di (fun _ => v) r := by
      rw [List.getD_eq_getElem?_getD, ← List.get?_eq_getElem?, hget']
      rfl
    have hdfk : df.rows.getD k [] = r := by
      rw [hrenrows] at hget
      rw [List.getD_eq_getElem?_getD, ← List.get?_eq_getElem?, hget]
      rfl
    unfold outDateKey rawDateKey
    rw [hnumpres, hd1k, hdfk, getD_modifyAt_const]
    by_cases hdir : di < r.length
    · rw [if_pos hdir]
      exact outKeyCell_toDatetime _ _ hcell
    · rw [if_neg hdir]
      have hrshort : r.getD di .missing = .missing :=
        List.getD_eq_default r _ (by omega)
      rw [hrshort]
      rfl
  refine ⟨mid, di, hmid, hdi, hsub, hlen, hkey, ?_⟩
  intro hsorted
  have hmidsorted : mid.rows.Pairwise
      (fun r1 r2 => keyLE (outDateKey di r1) (outDateKey di r2)) := by
    rw [List.pairwise_iff_get] at hsorted ⊢
    intro a b hab
    have hka : (a : Nat) < df.rows.length := by
      have := a.isLt
      omega
    have hkb : (b : Nat) < df.rows.length := by
      have := b.isLt
      omega
    have hga : mid.rows.get a = mid.rows.getD (a : Nat) [] := by
      rw [List.getD_eq_getElem _ _ a.isLt]
      rfl
    have hgb : mid.rows.get b = mid.rows.getD (b : Nat) [] := by
      rw [List.getD_eq_getElem _ _ b.isLt]
      rfl
    rw [hga, hgb, hkey _ hka, hkey _ hkb]
    have hs := hsorted ⟨(a : Nat), hka⟩ ⟨(b : Nat), hkb⟩ (by simpa using hab)
    have hda : df.rows.get ⟨(a : Nat), hka⟩ = df.rows.getD (a : Nat) [] := by
      rw [List.getD_eq_getElem _ _ hka]
      rfl
    have hdb : df.rows.get ⟨(b : Nat), hkb⟩ = df.rows.getD (b : Nat) [] := by
      rw [List.getD_eq_getElem _ _ hkb]
      rfl
    rw [hda, hdb] at hs
    exact hs
  exact List.Pairwise.sublist hsub hmidsorted

/-- C10 witness: the sample run keeps its single surviving row as a
subsequence of the coerced rows with the same resolved dates. -/
theorem c10_order_preserved_witness :
    ∃ mid i, coercedStage sampleDf = .ok mid ∧
      (renameCols sampleDf).cols.indexOf? "date" = some i ∧
      sampleNdf.rows.Sublist mid.rows ∧
      mid.rows.length = sampleDf.rows.length ∧
      (∀ k, k < sampleDf.rows.length →
        outDateKey i (mid.rows.getD k []) =
          rawDateKey i (sampleDf.rows.getD k [])) ∧
      (sampleDf.rows.Pairwise
          (fun r1 r2 => keyLE (rawDateKey i r1) (rawDateKey i r2)) →
        sampleNdf.rows.Pairwise
          (fun r1 r2 => keyLE (outDateKey i r1) (outDateKey i r2))) :=
  c10_order_preserved sampleDf sampleNdf rfl

/-- C8 witness: the upper-cased choice `"QFQ"` is rejected before the run,
while the default and the enumerated choices parse. -/
theorem c8_cli_parsing_witness :
    (∃ e, parseArgs (some "600519") (some "QFQ") = .error e) ∧
    parseArgs (some "600519") none = .ok ⟨"600519", "qfq"⟩ ∧
    (∃ e, mainRun (some "600519") (some "QFQ") "/app" "20251012" true
      (fun _ => .ok emptyDf) = .error e) :=
  ⟨(c8_cli_parsing.2.2.2.1 "600519" "QFQ" (by decide)),
   c8_cli_parsing.2.1 "600519",
   c8_cli_parsing.2.2.2.2 "600519" "QFQ" "/app" "20251012" true _ (by decide)⟩

end Stockdata
